import Mathlib

/-!
Shallow embedding of the tap-updater repository (tap-updater.py and
xorg-updater.py).  External `brew` invocations are abstracted as oracle
parameters; string manipulation mirrors the Python operations over `List Char`
so that everything is kernel-computable.
-/

/-- Python `needle in haystack` on character lists: `n` occurs contiguously in `h`. -/
def occursInB (n h : List Char) : Bool :=
  (List.range (h.length + 1)).any (fun i => n.isPrefixOf (h.drop i))

/-- Python `needle in haystack` on strings. -/
def substrB (n h : String) : Bool := occursInB n.data h.data

/-- Python `s.startswith(p)`. -/
def strPrefixB (p s : String) : Bool := p.data.isPrefixOf s.data

/-- Python `s.count(c)` for a single character. -/
def charCount (c : Char) (s : String) : Nat := s.data.count c

/-- Python `s.isdigit()` (ASCII model): nonempty and all characters digits. -/
def pyIsdigit (s : String) : Bool := !s.data.isEmpty && s.data.all (·.isDigit)

/-- Python `s[n:]`. -/
def strDrop (s : String) (n : Nat) : String := String.mk (s.data.drop n)

/-- Fuel-driven structural splitter behind `pySplit`; the fuel makes the
recursion structural so that concrete instances reduce in the kernel. -/
def splitOnFuel (sep : List Char) : Nat → List Char → List (List Char)
  | 0, l => [l]
  | _ + 1, [] => [[]]
  | fuel + 1, c :: rest =>
    if sep.isPrefixOf (c :: rest) then
      [] :: splitOnFuel sep fuel ((c :: rest).drop sep.length)
    else
      match splitOnFuel sep fuel rest with
      | [] => [[c]]
      | h :: t => (c :: h) :: t

/-- Python `s.split(sep)` for a nonempty separator. -/
def pySplit (s sep : String) : List String :=
  if sep.data.isEmpty then [s]
  else (splitOnFuel sep.data (s.data.length + 1) s.data).map (fun l => String.mk l)

/-- Python `sep.join(parts)`. -/
def joinSep (sep : String) : List String → String
  | [] => ""
  | [x] => x
  | x :: y :: xs => x ++ sep ++ joinSep sep (y :: xs)

/-- Python `s.rsplit("/", 1)[0]`: the part before the last separator, or the
whole string when there is none. -/
def rsplit1 (s : String) : String :=
  let parts := pySplit s "/"
  if parts.length ≤ 1 then s else joinSep "/" parts.dropLast

/-- Scope of a PackageId per the spec data model (`<scope>/<name>`): everything
before the last separator.  Coincides with the code's rsplit-based parent. -/
def scopeOf (s : String) : String := rsplit1 s

/-- Bare (unqualified) package name: the part after the last separator. -/
def bareName (s : String) : String := (pySplit s "/").getLastD s

/- ### Batch scheduler (tap-updater.py lines 475-486) -/

/-- Reading `batches[k]` from the `defaultdict(list)` model: the list at key
`k`, empty when the key is absent. -/
def batchLookup (bs : List (Nat × List String)) (k : Nat) : List String :=
  (bs.lookup k).getD []

/-- Python `batches[key].append(x)` on the association-list model of
`defaultdict(list)`. -/
def dictAppend (bs : List (Nat × List String)) (k : Nat) (x : String) :
    List (Nat × List String) :=
  match bs with
  | [] => [(k, [x])]
  | kv :: rest => if kv.1 = k then (k, kv.2 ++ [x]) :: rest else kv :: dictAppend rest k x

/-- State of the tap-updater batch loop: the accumulating dict and `previous`. -/
structure BatchState where
  batches : List (Nat × List String)
  previous : Nat
deriving DecidableEq

/-- One iteration of the tap-updater batch loop (lines 478-486): the guard is
Python's `previous and all(dep not in batches[previous] for dep in deps)`. -/
def batchStep (st : BatchState) (element : String × List String) : BatchState :=
  let key :=
    if st.previous != 0 &&
        element.2.all (fun dep => !((batchLookup st.batches st.previous).contains dep)) then
      st.previous
    else
      st.previous + 1
  { batches := dictAppend st.batches key element.1, previous := key }

/-- tap-updater.py lines 475-486: fold of `batchStep` starting from
`previous = 0` and an empty dict. -/
def runBatches (sorted_outdated_deps : List (String × List String)) : BatchState :=
  sorted_outdated_deps.foldl batchStep ⟨[], 0⟩

/-- Total number of occurrences of a package across all batches of the dict. -/
def totalCount (bs : List (Nat × List String)) (p : String) : Nat :=
  (bs.map (fun kv => kv.2.count p)).sum

/-- Loop invariant of the tap-updater batch loop: batch lists are never empty,
dict keys are distinct, the nonempty batches are exactly those with index
between 1 and `previous`, and every processed package occurs in the batches as
often as in the processed prefix. -/
def BatchInv (st : BatchState) (processed : List String) : Prop :=
  (∀ kv ∈ st.batches, kv.2 ≠ []) ∧
  (st.batches.map Prod.fst).Nodup ∧
  (∀ k, batchLookup st.batches k ≠ [] ↔ 1 ≤ k ∧ k ≤ st.previous) ∧
  (∀ p, totalCount st.batches p = processed.count p)

/- ### Batch scheduler variant (xorg-updater.py lines 81-93) -/

/-- Integer-keyed dict read for the xorg variant. -/
def xbatchLookup (bs : List (Int × List String)) (k : Int) : List String :=
  (bs.lookup k).getD []

/-- Integer-keyed `batches[key].append(x)` for the xorg variant. -/
def xdictAppend (bs : List (Int × List String)) (k : Int) (x : String) :
    List (Int × List String) :=
  match bs with
  | [] => [(k, [x])]
  | kv :: rest => if kv.1 = k then (k, kv.2 ++ [x]) :: rest else kv :: xdictAppend rest k x

/-- State of the xorg-updater batch loop; `previous` is an integer because the
source initializes it to `-1`. -/
structure XBatchState where
  batches : List (Int × List String)
  previous : Int
deriving DecidableEq

/-- One iteration of xorg-updater.py lines 84-93.  The guard is
`previous >= 0 and all(...)` with `previous` starting at `-1`, so the first
batch receives index 0.  The source's initial `key = len(deps)` is immediately
overwritten on both branches and therefore has no effect. -/
def xbatchStep (st : XBatchState) (element : String × List String) : XBatchState :=
  let key :=
    if decide (0 ≤ st.previous) &&
        element.2.all (fun dep => !((xbatchLookup st.batches st.previous).contains dep)) then
      st.previous
    else
      st.previous + 1
  { batches := xdictAppend st.batches key element.1, previous := key }

/-- xorg-updater.py lines 81-93: fold of `xbatchStep` starting from
`previous = -1`. -/
def xorgBatches (sorted_outdated_deps : List (String × List String)) : XBatchState :=
  sorted_outdated_deps.foldl xbatchStep ⟨[], -1⟩

/-- Decidable equality for `Except`, so that concrete runs can be settled by
`decide`. -/
instance {ε α : Type} [DecidableEq ε] [DecidableEq α] : DecidableEq (Except ε α) := fun x y =>
  match x, y with
  | .ok a, .ok b =>
    if h : a = b then .isTrue (h ▸ rfl) else .isFalse (fun hh => h (Except.ok.inj hh))
  | .error a, .error b =>
    if h : a = b then .isTrue (h ▸ rfl) else .isFalse (fun hh => h (Except.error.inj hh))
  | .ok _, .error _ => .isFalse (fun hh => Except.noConfusion hh)
  | .error _, .ok _ => .isFalse (fun hh => Except.noConfusion hh)

/- ### Update detector (tap-updater.py lines 347-420) -/

/-- Pre-release markers checked against the new version (line 387). -/
def markers : List String := ["alpha", "beta", "rc", "preview"]

/-- Version-stability policy, tap-updater.py lines 377-390, with `RAW_VERSIONS`
threaded in.  Returns (rejected, number of naming-convention warnings).  The
source's digit-class check at line 383-385 logs a warning whose `continue`
binds to the inner component loop, so that check never rejects a candidate by
itself; only the separator-count check and the pre-release-marker check do. -/
def versionStability (raw : Bool) (o n : String) : Bool × Nat :=
  if raw then (false, 0)
  else if charCount '.' o != charCount '.' n then (true, 0)
  else
    let warns :=
      ((pySplit o ".").zip (pySplit n ".")).countP (fun c => pyIsdigit c.1 != pyIsdigit c.2)
    if markers.any (fun m => substrB m n) then (true, warns)
    else (false, warns)

/-- Command-line configuration relevant to the detector. -/
structure DetConfig where
  RAW_VERSIONS : Bool
  PROCESS_ALL_TAPS : Bool
  SKIPLIST : List String
deriving DecidableEq

/-- Outcome of the external queries for one formula.  `interrupt` models a
KeyboardInterrupt arriving while the formula is processed; `query` carries the
stripped stdout of `brew livecheck -n` and the output of `brew deps`. -/
inductive Event where
  | interrupt
  | query (livecheck : String) (depsOut : List String)
deriving DecidableEq

/-- Accumulator dicts of the detector loop (lines 340-342). -/
structure DetState where
  old_versions : List (String × String)
  new_versions : List (String × String)
  deps : List (String × List String)
deriving DecidableEq

/-- tap-updater.py line 403 (and 299): qualify bare dependency names with the
default scope. -/
def normalizeDeps (ds : List String) : List String :=
  ds.map (fun x => if charCount '/' x == 0 then "homebrew/core/" ++ x else x)

/-- tap-updater.py lines 406-408: unless all taps are processed, keep only
dependencies whose name starts with the formula's rsplit-parent string. -/
def depsScopeFilter (allTaps : Bool) (formula : String) (ds : List String) : List String :=
  if !allTaps then ds.filter (fun x => strPrefixB (rsplit1 formula) x) else ds

/-- One iteration of the update-detector loop, tap-updater.py lines 348-420.
Errors carry (exit code, in-flight package): KeyboardInterrupt exits with 130
(line 418); the unpacking ValueError at line 375 is caught by the generic
handler and exits with 1 (line 420); both handlers are skipped when the
formula string is empty (Python truthiness of `if formula:`). -/
def detStep (cfg : DetConfig) (ev : String → Event) (st : DetState) (formula : String) :
    Except (Nat × String) DetState :=
  match ev formula with
  | .interrupt => if formula != "" then .error (130, formula) else .ok st
  | .query stdout depsOut =>
    if cfg.SKIPLIST.contains formula then .ok st
    else if stdout == "" then .ok st
    else if !substrB " : " stdout || !substrB " ==> " stdout then .ok st
    else
      match (pySplit stdout " : ").drop 1 with
      | second :: _ =>
        match pySplit second " ==> " with
        | [o, n] =>
          if (versionStability cfg.RAW_VERSIONS o n).1 then .ok st
          else
            .ok { old_versions := st.old_versions ++ [(formula, o)],
                  new_versions := st.new_versions ++ [(formula, n)],
                  deps := st.deps ++
                    [(formula, depsScopeFilter cfg.PROCESS_ALL_TAPS formula (normalizeDeps depsOut))] }
        | _ => if formula != "" then .error (1, formula) else .ok st
      | [] => if formula != "" then .error (1, formula) else .ok st

/-- Structural option-valued map, used to model dict comprehensions that may
raise KeyError. -/
def mapOption {α β : Type} (f : α → Option β) : List α → Option (List β)
  | [] => some []
  | a :: l =>
    match f a with
    | none => none
    | some b =>
      match mapOption f l with
      | none => none
      | some bs => some (b :: bs)

/-- tap-updater.py line 423: the derived outdated-dependency dict, one entry
per recorded version, filtering that formula's dependency list to members that
themselves have a recorded version.  `none` models the KeyError raised when a
recorded version has no dependency entry. -/
def outdated_deps (old_versions : List (String × String)) (deps : List (String × List String)) :
    Option (List (String × List String)) :=
  mapOption (fun kv =>
    (deps.lookup kv.1).map (fun ds => (kv.1, ds.filter (fun x => (old_versions.lookup x).isSome))))
    old_versions

/-- Stable insertion into a list sorted by dependency count, modelling Python's
stable `sorted(..., key=lambda x: len(x[1]))` at line 426. -/
def insertByLen (a : String × List String) :
    List (String × List String) → List (String × List String)
  | [] => [a]
  | b :: bs => if b.2.length < a.2.length then b :: insertByLen a bs else a :: b :: bs

/-- Python `sorted(outdated_deps.items(), key=lambda x: len(x[1]))`. -/
def sortByLen (l : List (String × List String)) : List (String × List String) :=
  l.foldr insertByLen []

/-- tap-updater.py lines 347-489 condensed: fold the detector over the working
set, then derive `outdated_deps`, sort, and schedule batches.  An error carries
the exit code and the in-flight package, and no batches are produced then. -/
def tapRun (cfg : DetConfig) (ev : String → Event) (formulae : List String) :
    Except (Nat × String) (Option BatchState) :=
  (formulae.foldlM (detStep cfg ev) ⟨[], [], []⟩).map (fun st =>
    (outdated_deps st.old_versions st.deps).map (fun od => runBatches (sortByLen od)))

/- ### The xorg-updater detector loop (xorg-updater.py lines 33-64) -/

/-- Hard-coded skip list of xorg-updater.py lines 18-23. -/
def xorgSkiplist : List String := ["libvdpau-va-gl", "mesa", "libva-intel-driver", "libva"]

/-- Hard-coded tap of xorg-updater.py line 14. -/
def xorgTapName : String := "linuxbrew/xorg"

/-- Accumulators of the xorg-updater loop, plus the interrupt reports printed
by its KeyboardInterrupt handler. -/
structure XState where
  outdated : List (String × (String × String))
  deps : List (String × List String)
  reports : List String
deriving DecidableEq

/-- One iteration of xorg-updater.py lines 37-61.  A KeyboardInterrupt is
caught, the in-flight formula is printed, and the loop CONTINUES with the next
formula: the `exit(130)` in the handler (line 61) is commented out.  The
unpacking ValueError at line 47 is not caught there and crashes the script,
modelled as `.error ()`.  Kept dependencies are trimmed with `x[15:]`. -/
def xorgStep (ev : String → Event) (st : XState) (formula : String) : Except Unit XState :=
  match ev formula with
  | .interrupt =>
    if formula != "" then .ok { st with reports := st.reports ++ [formula] } else .ok st
  | .query stdout depsOut =>
    if xorgSkiplist.contains formula then .ok st
    else if stdout == "" then .ok st
    else if !substrB " : " stdout || !substrB " ==> " stdout then .ok st
    else
      match (pySplit stdout " : ").drop 1 with
      | second :: _ =>
        match pySplit second " ==> " with
        | [o, n] =>
          .ok { st with
                outdated := st.outdated ++ [(formula, (o, n))],
                deps := st.deps ++
                  [(formula, (depsOut.filter (fun x => strPrefixB xorgTapName x)).map
                      (fun x => strDrop x 15))] }
        | _ => .error ()
      | [] => .error ()

/-- xorg-updater.py lines 63-64: same derivation as `outdated_deps`, keyed by
the `outdated` dict. -/
def xorgOutdatedDeps (outdated : List (String × (String × String)))
    (deps : List (String × List String)) : Option (List (String × List String)) :=
  mapOption (fun kv =>
    (deps.lookup kv.1).map (fun ds => (kv.1, ds.filter (fun x => (outdated.lookup x).isSome))))
    outdated

/-- xorg-updater.py lines 37-96 condensed: loop, derive, sort, schedule. -/
def xorgRun (ev : String → Event) (formulae : List String) :
    Except Unit (Option XBatchState) :=
  (formulae.foldlM (xorgStep ev) ⟨[], [], []⟩).map (fun st =>
    (xorgOutdatedDeps st.outdated st.deps).map (fun od => xorgBatches (sortByLen od)))

/- ### Token resolution (tap-updater.py lines 152-289) -/

/-- Result of resolving one user token, with the external lookups folded in:
a known tap carries its formula-name-to-file dict; any other token carries the
full and bare names derived from the reported file location. -/
inductive Token where
  | tapTok (name : String) (entries : List (String × String))
  | formulaTok (raw full bare loc : String)
deriving DecidableEq

/-- The working set and the location dict grown by the resolution loop. -/
structure ResState where
  formulae : List String
  formula_file : List (String × String)
deriving DecidableEq

/-- Python dict assignment `d[k] = v`: replace in place or append. -/
def dictInsert (d : List (String × String)) (k v : String) : List (String × String) :=
  match d with
  | [] => [(k, v)]
  | kv :: rest => if kv.1 = k then (k, v) :: rest else kv :: dictInsert rest k v

/-- Python `{**a, **b}`: iterated insertion of `b` into `a`. -/
def dictMerge (a b : List (String × String)) : List (String × String) :=
  b.foldl (fun acc kv => dictInsert acc kv.1 kv.2) a

/-- Python `set.union` on the list-with-set-semantics working-set model. -/
def setUnion (xs ys : List String) : List String :=
  xs ++ ys.filter (fun y => !xs.contains y)

/-- tap-updater.py lines 251-277: processing of one user token.  The raw token
is dropped when it is itself a skip-list item (line 255); a non-tap token is
additionally dropped when its full or bare name intersects the skip list
(line 272). -/
def resStep (SKIPLIST : List String) (st : ResState) (t : Token) : ResState :=
  match t with
  | .tapTok name entries =>
    if SKIPLIST.contains name then st
    else { formulae := setUnion st.formulae (entries.map Prod.fst),
           formula_file := dictMerge st.formula_file entries }
  | .formulaTok raw full bare loc =>
    if SKIPLIST.contains raw then st
    else if SKIPLIST.contains full || SKIPLIST.contains bare then st
    else { formulae := setUnion st.formulae [full],
           formula_file := dictInsert st.formula_file full loc }

/-- tap-updater.py lines 251-289: fold over the user tokens. -/
def resolveTokens (SKIPLIST : List String) (tokens : List Token) : ResState :=
  tokens.foldl (resStep SKIPLIST) ⟨[], []⟩

/-- The resolution-loop invariant: the working set and the key set of the
location dict coincide after each token. -/
def ResInv (st : ResState) : Prop :=
  ∀ x, x ∈ st.formulae ↔ ((st.formula_file.lookup x).isSome = true)

/- ### Dependency expansion and the adding loop (tap-updater.py lines 293-336) -/

/-- tap-updater.py line 314: keep dependencies whose name starts with
`TAP_NAME` and that are not already in the working set. -/
def tapFilter (TAP_NAME : String) (formulae e0 : List String) : List String :=
  e0.filter (fun x => strPrefixB TAP_NAME x && !formulae.contains x)

/-- tap-updater.py lines 294-316: the union of the reported build/test
dependencies (a Python set, hence deduplicated and scope-normalized, line 299),
minus the working set (line 304), filtered to the single tap unless all taps
are processed (lines 308-314). -/
def extra_formulae (allTaps : Bool) (TAP_NAME : Option String) (formulae ds : List String) :
    List String :=
  let e0 := ((normalizeDeps ds).dedup).filter (fun d => !formulae.contains d)
  if !e0.isEmpty && !allTaps then
    match TAP_NAME with
    | some t => tapFilter t formulae e0
    | none => e0
  else e0

/-- Failure modes of the dependency-adding loop: nonempty stderr from
`brew formula` (exit 1, line 330) or a conflicting recorded location
(exit 1, lines 333-334). -/
inductive AddErr where
  | stderrFail (f : String)
  | locationConflict (f : String)
deriving DecidableEq

/-- One iteration of tap-updater.py lines 321-336.  `loc` abstracts
`brew formula`; `none` models a nonempty stderr. -/
def addStep (loc : String → Option String) (st : ResState) (e : String) :
    Except AddErr ResState :=
  match loc e with
  | none => .error (.stderrFail e)
  | some location =>
    if (match st.formula_file.lookup e with
        | some old => location != old
        | none => false) then
      .error (.locationConflict e)
    else
      .ok { formulae := setUnion st.formulae [e],
            formula_file := dictInsert st.formula_file e location }

/-- tap-updater.py lines 321-336: the dependency-adding loop. -/
def addLoop (loc : String → Option String) (extra : List String) (st : ResState) :
    Except AddErr ResState :=
  extra.foldlM (addStep loc) st

/-- Discriminator for the location-conflict abort of lines 333-334. -/
def isLocationConflict (r : Except AddErr ResState) : Bool :=
  match r with
  | .error (.locationConflict _) => true
  | _ => false

/- ### Skip-list preprocessing (tap-updater.py lines 156-168) -/

/-- tap-updater.py lines 159-168: classify skip-list items into taps and
formulae, aborting with exit code 1 at the first item whose separator count is
outside `range(3)`.  Returns the accumulated (SKIP_TAPS, SKIP_FORMULAE). -/
def skiplistLoop : List String → List String → List String →
    Except Nat (List String × List String)
  | [], taps, forms => .ok (taps, forms)
  | item :: rest, taps, forms =>
    let numSlashes := charCount '/' item
    if 3 ≤ numSlashes then .error 1
    else if numSlashes == 0 then skiplistLoop rest taps (forms ++ ["homebrew/core/" ++ item])
    else if numSlashes == 1 then skiplistLoop rest (taps ++ [item]) forms
    else skiplistLoop rest taps (forms ++ [item])

/-- tap-updater.py lines 156-168 from the initial empty accumulators. -/
def skiplistPreprocess (SKIPLIST : List String) : Except Nat (List String × List String) :=
  skiplistLoop SKIPLIST [] []

/-- Program order of tap-updater.py: the skip-list preprocessing (lines
156-168) runs before the token-resolution loop (lines 251-289), so an abort in
the former reaches no token. -/
def runPrelude (SKIPLIST : List String) (tokens : List Token) : Except Nat ResState :=
  (skiplistPreprocess SKIPLIST).map (fun _ => resolveTokens SKIPLIST tokens)

/- ### The spec's textual update-check contract (spec section 6, claim C8) -/

/-- The spec-side two-part textual contract of the update-check output,
written from the spec's words: the output decomposes as
noise, " : ", old, " ==> ", new. -/
def matchesContract (s : String) : Prop :=
  ∃ l1 l2 l3 : List Char,
    s.data = l1 ++ ((" : ").data ++ (l2 ++ ((" ==> ").data ++ l3)))

/-- Executable form of `matchesContract`: some position carries " : " followed,
three characters later, by an occurrence of " ==> ". -/
def matchesContractB (s : String) : Bool :=
  (List.range (s.data.length + 1)).any (fun i =>
    (" : ").data.isPrefixOf (s.data.drop i) && occursInB (" ==> ").data (s.data.drop (i + 3)))

/-! ## Helper lemmas -/

theorem lookup_cons_ite {β : Type} (a k : String) (b : β) (es : List (String × β)) :
    List.lookup a ((k, b) :: es) = if a = k then some b else List.lookup a es := by
  cases h : a == k <;> simp [List.lookup, h] <;> simp_all

theorem batchLookup_dictAppend_self (bs : List (Nat × List String)) (k : Nat) (x : String) :
    batchLookup (dictAppend bs k x) k = batchLookup bs k ++ [x] := by
  induction bs with
  | nil => simp [dictAppend, batchLookup, List.lookup]
  | cons kv rest ih =>
    by_cases h : kv.1 = k
    · simp [dictAppend, h, batchLookup, List.lookup]
    · obtain ⟨k1, v1⟩ := kv
      simp only at h
      simp [dictAppend, h, batchLookup, List.lookup, Ne.symm h, ih]
      cases hbeq : k == k1
      · simpa [batchLookup] using ih
      · exact absurd (Eq.symm (by simpa using hbeq)) h

theorem batchLookup_dictAppend_ne (bs : List (Nat × List String)) (k x j)
    (h : j ≠ k) : batchLookup (dictAppend bs k x) j = batchLookup bs j := by
  induction bs with
  | nil =>
    simp only [dictAppend, batchLookup, List.lookup]
    cases hbeq : j == k
    · simp
    · exact absurd (by simpa using hbeq) h
  | cons kv rest ih =>
    by_cases hk : kv.1 = k
    · obtain ⟨k1, v1⟩ := kv
      simp only at hk
      subst hk
      simp [dictAppend, batchLookup, List.lookup]
      cases hbeq : j == k1
      · simp
      · exact absurd (by simpa using hbeq) h
    · obtain ⟨k1, v1⟩ := kv
      simp only at hk
      simp [dictAppend, hk, batchLookup, List.lookup]
      cases hbeq : j == k1
      · simpa [batchLookup] using ih
      · simp

/-! ## Claims -/

theorem batchStep_eq (st : BatchState) (p : String) (ds : List String) :
    batchStep st (p, ds) =
      ⟨dictAppend st.batches
          (if st.previous ≠ 0 ∧ ∀ d ∈ ds, d ∉ batchLookup st.batches st.previous
           then st.previous else st.previous + 1) p,
       if st.previous ≠ 0 ∧ ∀ d ∈ ds, d ∉ batchLookup st.batches st.previous
       then st.previous else st.previous + 1⟩ := by
  have hiff : (st.previous != 0 &&
      ds.all (fun dep => !((batchLookup st.batches st.previous).contains dep))) = true ↔
      (st.previous ≠ 0 ∧ ∀ d ∈ ds, d ∉ batchLookup st.batches st.previous) := by
    simp [List.all_eq_true, List.contains]
  by_cases hP : st.previous ≠ 0 ∧ ∀ d ∈ ds, d ∉ batchLookup st.batches st.previous
  · simp [batchStep, hiff.mpr hP, hP]
  · have hg : (st.previous != 0 &&
        ds.all (fun dep => !((batchLookup st.batches st.previous).contains dep))) = false :=
      Bool.eq_false_iff.mpr (fun hh => hP (hiff.mp hh))
    simp [batchStep, hg, hP]

/-- Claim C1 (amended): in tap-updater, one scheduler step assigns the package
to the previous batch exactly when `previous` is nonzero and no outdated
dependency is already a member of that batch, and to a fresh batch with index
`previous + 1` otherwise, updating `previous` to the assigned index; on the
two-pair scenario this yields batch 1 = a, batch 2 = b.  The xorg-updater
variant of the scheduler indexes from 0 and yields batch 0 = a, batch 1 = b on
the same input. -/
theorem C1_batch_rule :
    (∀ (st : BatchState) (p : String) (ds : List String),
      (batchStep st (p, ds)).previous =
        (if st.previous ≠ 0 ∧ ∀ d ∈ ds, d ∉ batchLookup st.batches st.previous
         then st.previous else st.previous + 1) ∧
      (∀ j, batchLookup (batchStep st (p, ds)).batches j =
        (if j = (batchStep st (p, ds)).previous
         then batchLookup st.batches j ++ [p]
         else batchLookup st.batches j))) ∧
    batchLookup (runBatches [("a", []), ("b", ["a"])]).batches 1 = ["a"] ∧
    batchLookup (runBatches [("a", []), ("b", ["a"])]).batches 2 = ["b"] ∧
    xbatchLookup (xorgBatches [("a", []), ("b", ["a"])]).batches 0 = ["a"] ∧
    xbatchLookup (xorgBatches [("a", []), ("b", ["a"])]).batches 1 = ["b"] := by
  refine ⟨?_, by decide, by decide, by decide, by decide⟩
  intro st p ds
  rw [batchStep_eq]
  refine ⟨rfl, ?_⟩
  intro j
  by_cases hj : j = (if st.previous ≠ 0 ∧ ∀ d ∈ ds, d ∉ batchLookup st.batches st.previous
      then st.previous else st.previous + 1)
  · subst hj
    simp [batchLookup_dictAppend_self]
  · rw [if_neg hj]
    exact batchLookup_dictAppend_ne _ _ _ _ hj

/-- Claim C1 counterexample: the xorg-updater scheduler on the scenario input
puts b (not a) in batch 1 and nothing in batch 2, because its batches start at
index 0; so the claimed output batch 1 = a, batch 2 = b is false for it. -/
theorem C1_counterexample :
    xbatchLookup (xorgBatches [("a", []), ("b", ["a"])]).batches 1 = ["b"] ∧
    xbatchLookup (xorgBatches [("a", []), ("b", ["a"])]).batches 2 = [] := by decide

theorem lookup_some_mem_keys {β : Type} (bs : List (String × β)) (k : String) (v : β)
    (h : bs.lookup k = some v) : k ∈ bs.map Prod.fst := by
  induction bs with
  | nil => simp [List.lookup] at h
  | cons kv rest ih =>
    obtain ⟨k1, v1⟩ := kv
    rw [lookup_cons_ite] at h
    by_cases hk : k = k1
    · simp [hk]
    · simp only [hk, if_false] at h
      simp [hk, ih h]

theorem natLookup_some_mem_keys (bs : List (Nat × List String)) (k : Nat) (v : List String)
    (h : bs.lookup k = some v) : k ∈ bs.map Prod.fst := by
  induction bs with
  | nil => simp [List.lookup] at h
  | cons kv rest ih =>
    obtain ⟨k1, v1⟩ := kv
    by_cases hk : k = k1
    · simp [hk]
    · rw [List.lookup] at h
      rw [show (k == k1) = false from by simpa using hk] at h
      simp [hk, ih h]

theorem batchLookup_ne_nil_iff (bs : List (Nat × List String)) (k : Nat)
    (h0 : ∀ kv ∈ bs, kv.2 ≠ []) :
    batchLookup bs k ≠ [] ↔ k ∈ bs.map Prod.fst := by
  induction bs with
  | nil => simp [batchLookup, List.lookup]
  | cons kv rest ih =>
    obtain ⟨k1, v1⟩ := kv
    by_cases hk : k = k1
    · subst hk
      have hv1 : v1 ≠ [] := h0 (k, v1) (by simp)
      simp [batchLookup, List.lookup, hv1]
    · have : batchLookup ((k1, v1) :: rest) k = batchLookup rest k := by
        rw [batchLookup, List.lookup]
        rw [show (k == k1) = false from by simpa using hk]
        rfl
      rw [this]
      simp only [List.map_cons, List.mem_cons, hk, false_or]
      exact ih (fun kv hkv => h0 kv (by simp [hkv]))

theorem keys_dictAppend (bs : List (Nat × List String)) (k : Nat) (x : String) :
    (dictAppend bs k x).map Prod.fst =
      (if k ∈ bs.map Prod.fst then bs.map Prod.fst else bs.map Prod.fst ++ [k]) := by
  induction bs with
  | nil => simp [dictAppend]
  | cons kv rest ih =>
    obtain ⟨k1, v1⟩ := kv
    by_cases hk : k1 = k
    · subst hk
      simp [dictAppend]
    · simp only [dictAppend, hk, if_false]
      by_cases hmem : k ∈ rest.map Prod.fst
      · simp [hmem, ih, Ne.symm hk]
      · simp [hmem, ih, Ne.symm hk]

theorem nonnil_dictAppend (bs : List (Nat × List String)) (k : Nat) (x : String)
    (h0 : ∀ kv ∈ bs, kv.2 ≠ []) :
    ∀ kv ∈ dictAppend bs k x, kv.2 ≠ [] := by
  induction bs with
  | nil => simp [dictAppend]
  | cons kv rest ih =>
    obtain ⟨k1, v1⟩ := kv
    by_cases hk : k1 = k
    · subst hk
      intro kv2 hkv2
      simp only [dictAppend, if_pos rfl] at hkv2
      rcases List.mem_cons.mp hkv2 with h | h
      · subst h; simp
      · exact h0 kv2 (by simp [h])
    · intro kv2 hkv2
      simp only [dictAppend, hk, if_false] at hkv2
      rcases List.mem_cons.mp hkv2 with h | h
      · subst h; exact h0 (k1, v1) (by simp)
      · exact ih (fun kv3 hkv3 => h0 kv3 (by simp [hkv3])) kv2 h

theorem totalCount_dictAppend (bs : List (Nat × List String)) (k : Nat) (x p : String) :
    totalCount (dictAppend bs k x) p = totalCount bs p + (if p = x then 1 else 0) := by
  induction bs with
  | nil =>
    simp only [dictAppend, totalCount, List.map_cons, List.map_nil, List.sum_cons, List.sum_nil]
    by_cases hp : p = x
    · subst hp; simp
    · simp [List.count_singleton', hp, Ne.symm hp]
  | cons kv rest ih =>
    obtain ⟨k1, v1⟩ := kv
    have hsing : List.count p [x] = if p = x then 1 else 0 := by
      by_cases hp : p = x
      · subst hp; simp
      · simp [List.count_cons, hp, Ne.symm hp]
    by_cases hk : k1 = k
    · subst hk
      have hred : dictAppend ((k1, v1) :: rest) k1 x = (k1, v1 ++ [x]) :: rest := by
        simp [dictAppend]
      rw [hred]
      simp only [totalCount, List.map_cons, List.sum_cons]
      rw [List.count_append, hsing]
      omega
    · have hred : dictAppend ((k1, v1) :: rest) k x = (k1, v1) :: dictAppend rest k x := by
        simp [dictAppend, hk]
      rw [hred]
      simp only [totalCount, List.map_cons, List.sum_cons]
      have := ih
      simp only [totalCount] at this
      omega

theorem mem_batchLookup_totalCount_pos (bs : List (Nat × List String)) (p : String) (y : Nat)
    (h : p ∈ batchLookup bs y) : 0 < totalCount bs p := by
  induction bs with
  | nil => simp [batchLookup, List.lookup] at h
  | cons kv rest ih =>
    obtain ⟨k1, v1⟩ := kv
    simp only [totalCount, List.map_cons, List.sum_cons]
    by_cases hy : y = k1
    · subst hy
      have : batchLookup ((y, v1) :: rest) y = v1 := by simp [batchLookup, List.lookup]
      rw [this] at h
      have := List.count_pos_iff.mpr h
      omega
    · have : batchLookup ((k1, v1) :: rest) y = batchLookup rest y := by
        rw [batchLookup, List.lookup]
        rw [show (y == k1) = false from by simpa using hy]
        rfl
      rw [this] at h
      have := ih h
      simp only [totalCount] at this
      omega

theorem existsUnique_batch_of_totalCount_one (bs : List (Nat × List String)) (p : String)
    (hnd : (bs.map Prod.fst).Nodup) (h1 : totalCount bs p = 1) :
    ∃! k, p ∈ batchLookup bs k := by
  induction bs with
  | nil => simp [totalCount] at h1
  | cons kv rest ih =>
    obtain ⟨k1, v1⟩ := kv
    simp only [totalCount, List.map_cons, List.sum_cons] at h1
    have hskip : ∀ y : Nat, y ≠ k1 →
        batchLookup ((k1, v1) :: rest) y = batchLookup rest y := by
      intro y hyk
      rw [batchLookup, List.lookup]
      rw [show (y == k1) = false from by simpa using hyk]
      rfl
    have hhead : batchLookup ((k1, v1) :: rest) k1 = v1 := by
      simp [batchLookup, List.lookup]
    by_cases hv : p ∈ v1
    · have hcpos : 0 < v1.count p := List.count_pos_iff.mpr hv
      have hrest : (rest.map (fun kv => kv.2.count p)).sum = 0 := by omega
      refine ⟨k1, show p ∈ batchLookup ((k1, v1) :: rest) k1 by rw [hhead]; exact hv, ?_⟩
      intro y hy
      have hy2 : p ∈ batchLookup ((k1, v1) :: rest) y := hy
      by_cases hyk : y = k1
      · exact hyk
      · exfalso
        rw [hskip y hyk] at hy2
        have := mem_batchLookup_totalCount_pos rest p y hy2
        simp only [totalCount] at this
        omega
    · have hc0 : v1.count p = 0 := List.count_eq_zero.mpr hv
      have hrest : totalCount rest p = 1 := by simp only [totalCount]; omega
      have hnd2 : (k1 :: rest.map Prod.fst).Nodup := by simpa using hnd
      obtain ⟨k0, hk0, huniq⟩ := ih hnd2.of_cons hrest
      have hk02 : p ∈ batchLookup rest k0 := hk0
      have hk0keys : k0 ∈ rest.map Prod.fst := by
        rcases hlk : rest.lookup k0 with _ | v
        · rw [batchLookup, hlk] at hk02; simp at hk02
        · exact natLookup_some_mem_keys rest k0 v hlk
      have hk1notin : k1 ∉ rest.map Prod.fst := (List.nodup_cons.mp hnd2).1
      have hk0ne : k0 ≠ k1 := fun hh => hk1notin (hh ▸ hk0keys)
      refine ⟨k0, ?_, ?_⟩
      · show p ∈ batchLookup ((k1, v1) :: rest) k0
        rw [hskip k0 hk0ne]
        exact hk02
      · intro y hy
        have hy2 : p ∈ batchLookup ((k1, v1) :: rest) y := hy
        by_cases hyk : y = k1
        · subst hyk
          rw [hhead] at hy2
          exact absurd hy2 hv
        · rw [hskip y hyk] at hy2
          exact huniq y hy2

theorem batchStep_inv (st : BatchState) (processed : List String) (p : String)
    (ds : List String) (h : BatchInv st processed) :
    BatchInv (batchStep st (p, ds)) (processed ++ [p]) := by
  obtain ⟨h0, h1, h2, h3⟩ := h
  have hcount : ∀ q, (processed ++ [p]).count q = processed.count q + (if q = p then 1 else 0) := by
    intro q
    rw [List.count_append]
    by_cases hq : q = p
    · subst hq; simp
    · simp [List.count_cons, hq, Ne.symm hq]
  rw [batchStep_eq]
  by_cases hP : st.previous ≠ 0 ∧ ∀ d ∈ ds, d ∉ batchLookup st.batches st.previous
  · rw [if_pos hP]
    have hprev1 : 1 ≤ st.previous := Nat.one_le_iff_ne_zero.mpr hP.1
    have hprevlk : batchLookup st.batches st.previous ≠ [] := (h2 st.previous).mpr ⟨hprev1, le_refl _⟩
    have hprevkeys : st.previous ∈ st.batches.map Prod.fst :=
      (batchLookup_ne_nil_iff st.batches st.previous h0).mp hprevlk
    refine ⟨nonnil_dictAppend _ _ _ h0, ?_, ?_, ?_⟩
    · rw [keys_dictAppend, if_pos hprevkeys]
      exact h1
    · intro k
      by_cases hk : k = st.previous
      · subst hk
        rw [batchLookup_dictAppend_self]
        simp only [ne_eq]
        constructor
        · intro _; exact ⟨hprev1, le_refl _⟩
        · intro _; simp
      · rw [batchLookup_dictAppend_ne _ _ _ _ hk]
        exact h2 k
    · intro q
      rw [totalCount_dictAppend, h3 q, hcount q]
  · rw [if_neg hP]
    have hnew : batchLookup st.batches (st.previous + 1) = [] := by
      by_contra hne
      have := (h2 (st.previous + 1)).mp hne
      omega
    have hnewkeys : st.previous + 1 ∉ st.batches.map Prod.fst := by
      intro hmem
      exact ((batchLookup_ne_nil_iff st.batches (st.previous + 1) h0).mpr hmem) hnew
    refine ⟨nonnil_dictAppend _ _ _ h0, ?_, ?_, ?_⟩
    · rw [keys_dictAppend, if_neg hnewkeys]
      rw [List.nodup_append]
      refine ⟨h1, List.nodup_singleton _, ?_⟩
      intro a ha hb
      simp only [List.mem_singleton] at hb
      subst hb
      exact hnewkeys ha
    · intro k
      by_cases hk : k = st.previous + 1
      · subst hk
        rw [batchLookup_dictAppend_self, hnew]
        simp only [List.nil_append, ne_eq]
        constructor
        · intro _; exact ⟨by omega, le_refl _⟩
        · intro _; simp
      · rw [batchLookup_dictAppend_ne _ _ _ _ hk]
        rw [h2 k]
        show 1 ≤ k ∧ k ≤ st.previous ↔ 1 ≤ k ∧ k ≤ st.previous + 1
        omega
    · intro q
      rw [totalCount_dictAppend, h3 q, hcount q]

theorem foldl_batchStep_inv (input : List (String × List String)) :
    ∀ (st : BatchState) (processed : List String), BatchInv st processed →
      BatchInv (input.foldl batchStep st) (processed ++ input.map Prod.fst) := by
  induction input with
  | nil => intro st processed h; simpa using h
  | cons e rest ih =>
    intro st processed h
    obtain ⟨p, ds⟩ := e
    have hstep := batchStep_inv st processed p ds h
    have := ih (batchStep st (p, ds)) (processed ++ [p]) hstep
    simpa [List.append_assoc] using this

theorem runBatches_inv (input : List (String × List String)) :
    BatchInv (runBatches input) (input.map Prod.fst) := by
  have hinit : BatchInv ⟨[], 0⟩ [] := by
    refine ⟨by simp, by simp, ?_, by simp [totalCount]⟩
    intro k
    simp only [batchLookup, List.lookup, Option.getD_none]
    constructor
    · intro h; exact absurd rfl h
    · intro h; omega
  have := foldl_batchStep_inv input ⟨[], 0⟩ [] hinit
  simpa [runBatches] using this

/-- Claim C3 (amended): in tap-updater, for any scheduler input with distinct
package names every package appears in exactly one batch, and the nonempty
batch indices are exactly the contiguous range from 1 to the final `previous`;
the xorg-updater variant instead opens its first batch at index 0. -/
theorem C3_batches_partition (input : List (String × List String))
    (hnd : (input.map Prod.fst).Nodup) :
    (∀ p ∈ input.map Prod.fst, ∃! k, p ∈ batchLookup (runBatches input).batches k) ∧
    (∀ k, batchLookup (runBatches input).batches k ≠ [] ↔
      1 ≤ k ∧ k ≤ (runBatches input).previous) ∧
    xbatchLookup (xorgBatches [("c", [])]).batches 0 = ["c"] := by
  obtain ⟨h0, h1, h2, h3⟩ := runBatches_inv input
  refine ⟨?_, h2, by decide⟩
  intro p hp
  apply existsUnique_batch_of_totalCount_one _ _ h1
  rw [h3 p]
  exact List.count_eq_one_of_mem hnd hp

/-- Claim C3 witness: the partition and contiguity facts instantiated on the
concrete two-package input. -/
theorem C3_batches_partition_witness :
    (∀ p ∈ ([("a", []), ("b", ["a"])] : List (String × List String)).map Prod.fst,
      ∃! k, p ∈ batchLookup (runBatches [("a", []), ("b", ["a"])]).batches k) ∧
    (∀ k, batchLookup (runBatches [("a", []), ("b", ["a"])]).batches k ≠ [] ↔
      1 ≤ k ∧ k ≤ (runBatches [("a", []), ("b", ["a"])]).previous) ∧
    xbatchLookup (xorgBatches [("c", [])]).batches 0 = ["c"] :=
  C3_batches_partition [("a", []), ("b", ["a"])] (by decide)

/-- Claim C3 counterexample: the xorg-updater scheduler places a sole package
in a batch with index 0, so the batch indices used do not form a range
starting at 1. -/
theorem C3_counterexample :
    xbatchLookup (xorgBatches [("a", [])]).batches 0 = ["a"] ∧
    xbatchLookup (xorgBatches [("a", [])]).batches 1 = [] := by decide

/-- Claim C2: evaluation of the code at the claim's failing input.  With the
stability policy enabled and detected versions 1.2.3 and 1.b.3, the policy
does NOT reject the candidate (it only counts one naming-convention warning,
because the source's `continue` at line 385 binds to the inner component
loop), and the detector records the VersionPair. -/
theorem C2_policy_evaluation :
    versionStability false "1.2.3" "1.b.3" = (false, 1) ∧
    detStep ⟨false, false, []⟩ (fun _ => .query "user/tap/pkg : 1.2.3 ==> 1.b.3" [])
        ⟨[], [], []⟩ "user/tap/pkg" =
      .ok ⟨[("user/tap/pkg", "1.2.3")], [("user/tap/pkg", "1.b.3")],
           [("user/tap/pkg", [])]⟩ := by decide

theorem mapOption_eq_map {α β : Type} (f : α → Option β) (g : α → β) (l : List α)
    (h : ∀ a ∈ l, f a = some (g a)) : mapOption f l = some (l.map g) := by
  induction l with
  | nil => simp [mapOption]
  | cons a rest ih =>
    have ha : f a = some (g a) := h a (by simp)
    have hrest : mapOption f rest = some (rest.map g) :=
      ih (fun b hb => h b (by simp [hb]))
    simp [mapOption, ha, hrest]

theorem lookup_map_keyed {γ β : Type} (ov : List (String × γ)) (f : String → β) (p : String) :
    (ov.map (fun kv => (kv.1, f kv.1))).lookup p = (ov.lookup p).map (fun _ => f p) := by
  induction ov with
  | nil => simp [List.lookup]
  | cons kv rest ih =>
    obtain ⟨k1, v1⟩ := kv
    by_cases hk : p = k1
    · subst hk
      simp [List.lookup]
    · simp only [List.map_cons]
      rw [lookup_cons_ite, lookup_cons_ite, if_neg hk, if_neg hk, ih]

/-- Claim C4: the derived outdated-dependency mapping has exactly the recorded
versions as keys (in order), maps each such package to the order-preserving
filter of its recorded dependency list to members that themselves have a
recorded version, and has no entry for any other package. -/
theorem C4_outdated_deps (ov : List (String × String)) (dp : List (String × List String))
    (hall : ∀ kv ∈ ov, (dp.lookup kv.1).isSome = true) :
    ∃ m, outdated_deps ov dp = some m ∧
      m.map Prod.fst = ov.map Prod.fst ∧
      (∀ p ds, dp.lookup p = some ds → (ov.lookup p).isSome = true →
        m.lookup p = some (ds.filter (fun x => (ov.lookup x).isSome))) ∧
      (∀ p, ov.lookup p = none → m.lookup p = none) := by
  refine ⟨ov.map (fun kv =>
      (kv.1, ((dp.lookup kv.1).getD []).filter (fun x => (ov.lookup x).isSome))), ?_, ?_, ?_, ?_⟩
  · rw [outdated_deps]
    apply mapOption_eq_map
    intro kv hkv
    rcases hlk : dp.lookup kv.1 with _ | ds
    · have := hall kv hkv
      rw [hlk] at this
      simp at this
    · simp [hlk]
  · simp
  · intro p ds hdp hov
    rw [lookup_map_keyed ov
      (fun q => ((dp.lookup q).getD []).filter (fun x => (ov.lookup x).isSome)) p]
    rcases hlk : ov.lookup p with _ | v
    · rw [hlk] at hov; simp at hov
    · simp [hdp]
  · intro p hnone
    rw [lookup_map_keyed ov
      (fun q => ((dp.lookup q).getD []).filter (fun x => (ov.lookup x).isSome)) p]
    simp [hnone]

/-- Claim C4 witness: the derivation evaluated on a concrete pair of dicts. -/
theorem C4_outdated_deps_witness :
    ∃ m, outdated_deps [("t/a", "1"), ("t/b", "2")] [("t/a", ["t/x", "t/b"]), ("t/b", [])] =
        some m ∧
      m.map Prod.fst = ([("t/a", "1"), ("t/b", "2")] : List (String × String)).map Prod.fst ∧
      (∀ p ds, ([("t/a", ["t/x", "t/b"]), ("t/b", [])] :
          List (String × List String)).lookup p = some ds →
        (([("t/a", "1"), ("t/b", "2")] : List (String × String)).lookup p).isSome = true →
        m.lookup p = some (ds.filter (fun x =>
          (([("t/a", "1"), ("t/b", "2")] : List (String × String)).lookup x).isSome))) ∧
      (∀ p, ([("t/a", "1"), ("t/b", "2")] : List (String × String)).lookup p = none →
        m.lookup p = none) :=
  C4_outdated_deps [("t/a", "1"), ("t/b", "2")] [("t/a", ["t/x", "t/b"]), ("t/b", [])]
    (by decide)

theorem foldlM_append_except {ε σ α : Type} (f : σ → α → Except ε σ) (l1 l2 : List α) (s : σ) :
    (l1 ++ l2).foldlM f s = (l1.foldlM f s) >>= fun s2 => l2.foldlM f s2 := by
  induction l1 generalizing s with
  | nil => simp
  | cons a rest ih =>
    simp only [List.cons_append, List.foldlM_cons]
    cases f s a with
    | error e => simp [Bind.bind, Except.bind]
    | ok s1 =>
      have := ih s1
      simp only [Bind.bind, Except.bind]
      exact this

/-- Claim C5 (amended): in tap-updater, a user interruption while processing a
package stops the run right there, carries exit code 130 together with the
in-flight package, and no batch output is computed; the xorg-updater handler
instead only reports the in-flight package and continues. -/
theorem C5_interrupt_tap (cfg : DetConfig) (ev : String → Event) (pre post : List String)
    (p : String) (st2 : DetState) (hp : p ≠ "") (hev : ev p = .interrupt)
    (hpre : pre.foldlM (detStep cfg ev) (⟨[], [], []⟩ : DetState) = .ok st2) :
    tapRun cfg ev (pre ++ p :: post) = .error (130, p) := by
  have hstep : detStep cfg ev st2 p = .error (130, p) := by
    rw [detStep, hev]
    rw [if_pos (bne_iff_ne.mpr hp)]
  have hfold : (pre ++ p :: post).foldlM (detStep cfg ev) (⟨[], [], []⟩ : DetState) =
      .error (130, p) := by
    rw [foldlM_append_except, hpre]
    show (p :: post).foldlM (detStep cfg ev) st2 = _
    rw [List.foldlM_cons, hstep]
    rfl
  rw [tapRun, hfold]
  rfl

/-- Claim C5 witness: a concrete interrupted tap-updater run exits with 130
and the interrupted package, producing no batches. -/
theorem C5_interrupt_tap_witness :
    tapRun ⟨false, false, []⟩
      (fun f => if f = "t/u/b" then .interrupt else .query "" []) ["t/u/a", "t/u/b"] =
      .error (130, "t/u/b") :=
  C5_interrupt_tap ⟨false, false, []⟩
    (fun f => if f = "t/u/b" then .interrupt else .query "" []) ["t/u/a"] [] "t/u/b"
    ⟨[], [], []⟩ (by decide) (by decide) (by decide)

/-- Claim C5 counterexample: in xorg-updater an interruption while processing
package a only records the report and continues; the run then terminates
normally (not with exit code 130) and still emits batch output computed from
the incomplete dataset. -/
theorem C5_counterexample :
    (fun f => if f = "a" then Event.interrupt else Event.query "x : 1 ==> 2" []) "a" =
      Event.interrupt ∧
    ["a", "b"].foldlM
        (xorgStep (fun f => if f = "a" then Event.interrupt else Event.query "x : 1 ==> 2" []))
        (⟨[], [], []⟩ : XState) =
      .ok ⟨[("b", ("1", "2"))], [("b", [])], ["a"]⟩ ∧
    xorgRun (fun f => if f = "a" then Event.interrupt else Event.query "x : 1 ==> 2" [])
        ["a", "b"] =
      .ok (some ⟨[(0, ["b"])], 0⟩) := by decide

theorem detStep_query (cfg : DetConfig) (ev : String → Event) (st : DetState)
    (formula stdout : String) (depsOut : List String)
    (hev : ev formula = .query stdout depsOut) :
    detStep cfg ev st formula =
      (if cfg.SKIPLIST.contains formula then .ok st
       else if stdout == "" then .ok st
       else if !substrB " : " stdout || !substrB " ==> " stdout then .ok st
       else
         match (pySplit stdout " : ").drop 1 with
         | second :: _ =>
           match pySplit second " ==> " with
           | [o, n] =>
             if (versionStability cfg.RAW_VERSIONS o n).1 then .ok st
             else
               .ok { old_versions := st.old_versions ++ [(formula, o)],
                     new_versions := st.new_versions ++ [(formula, n)],
                     deps := st.deps ++
                       [(formula,
                         depsScopeFilter cfg.PROCESS_ALL_TAPS formula (normalizeDeps depsOut))] }
           | _ => if formula != "" then .error (1, formula) else .ok st
         | [] => if formula != "" then .error (1, formula) else .ok st) := by
  rw [detStep, hev]

/-- Claim C6 (amended): when "all scopes" is off, both dependency filters keep
exactly the dependencies whose fully-qualified name has the established tap
name (respectively the formula's rsplit-parent) as a string PREFIX and, for
the expansion filter, that are not already in the working set; equality of
scopes is not what is checked. -/
theorem C6_scope_filters :
    (∀ t fs e0 x, x ∈ tapFilter t fs e0 ↔
      (x ∈ e0 ∧ strPrefixB t x = true ∧ fs.contains x = false)) ∧
    (∀ formula ds x, x ∈ depsScopeFilter false formula ds ↔
      (x ∈ ds ∧ strPrefixB (rsplit1 formula) x = true)) := by
  constructor
  · intro t fs e0 x
    simp [tapFilter, List.mem_filter]
  · intro formula ds x
    simp [depsScopeFilter, List.mem_filter]

/-- Claim C6 counterexample: with established tap linuxbrew/xorg, the
dependency linuxbrew/xorg-extras/foo passes the expansion filter and the
detector stores it in the DependencySet of linuxbrew/xorg/mesa, although its
scope linuxbrew/xorg-extras differs from the established scope; so dependencies
from a different scope are not always discarded. -/
theorem C6_counterexample :
    tapFilter "linuxbrew/xorg" [] ["linuxbrew/xorg-extras/foo"] =
      ["linuxbrew/xorg-extras/foo"] ∧
    detStep ⟨false, false, []⟩
        (fun _ => .query "linuxbrew/xorg/mesa : 1 ==> 2" ["linuxbrew/xorg-extras/foo"])
        ⟨[], [], []⟩ "linuxbrew/xorg/mesa" =
      .ok ⟨[("linuxbrew/xorg/mesa", "1")], [("linuxbrew/xorg/mesa", "2")],
           [("linuxbrew/xorg/mesa", ["linuxbrew/xorg-extras/foo"])]⟩ ∧
    scopeOf "linuxbrew/xorg-extras/foo" = "linuxbrew/xorg-extras" ∧
    scopeOf "linuxbrew/xorg/mesa" = "linuxbrew/xorg" ∧
    ("linuxbrew/xorg-extras" = "linuxbrew/xorg") = False := by
  refine ⟨by decide, by decide, by decide, by decide, by simp⟩

/-- Claim C7 (amended): a user token is excluded from resolution when the raw
token, the fully-qualified name, or the bare name is a skip-list item, but the
update detector skips a package only when its fully-qualified name is itself a
skip-list item; it does not consult bare names. -/
theorem C7_skiplist_matching :
    (∀ sl st r f b l, (sl.contains r || sl.contains f || sl.contains b) = true →
      resStep sl st (Token.formulaTok r f b l) = st) ∧
    (∀ cfg ev st formula stdout depsOut, ev formula = Event.query stdout depsOut →
      cfg.SKIPLIST.contains formula = true → detStep cfg ev st formula = .ok st) := by
  constructor
  · intro sl st r f b l h
    rw [resStep]
    rcases Bool.or_eq_true_iff.mp h with h1 | h2
    · rcases Bool.or_eq_true_iff.mp h1 with hr | hf
      · rw [if_pos hr]
      · by_cases hr : sl.contains r = true
        · rw [if_pos hr]
        · rw [if_neg hr, if_pos (Bool.or_eq_true_iff.mpr (Or.inl hf))]
    · by_cases hr : sl.contains r = true
      · rw [if_pos hr]
      · rw [if_neg hr, if_pos (Bool.or_eq_true_iff.mpr (Or.inr h2))]
  · intro cfg ev st formula stdout depsOut hev hsl
    rw [detStep_query cfg ev st formula stdout depsOut hev, if_pos hsl]

/-- Claim C7 witness: concrete token exclusion by bare name at resolution, and
concrete detector skip by fully-qualified name. -/
theorem C7_skiplist_matching_witness :
    resStep ["foo"] ⟨[], []⟩ (Token.formulaTok "user/tap/foo" "user/tap/foo" "foo" "loc") =
      ⟨[], []⟩ ∧
    detStep ⟨false, false, ["user/tap/foo"]⟩ (fun _ => .query "s" []) ⟨[], [], []⟩
        "user/tap/foo" = .ok ⟨[], [], []⟩ :=
  ⟨C7_skiplist_matching.1 ["foo"] ⟨[], []⟩ "user/tap/foo" "user/tap/foo" "foo" "loc"
      (by decide),
   C7_skiplist_matching.2 ⟨false, false, ["user/tap/foo"]⟩ (fun _ => .query "s" [])
      ⟨[], [], []⟩ "user/tap/foo" "s" [] rfl (by decide)⟩

/-- Claim C7 counterexample: package user/tap/foo has its bare name foo in the
skip list, yet the detector does not skip it and records a VersionPair for it,
because the detector only compares fully-qualified names against skip-list
items; so such a package is not excluded. -/
theorem C7_counterexample :
    (["foo"].contains (bareName "user/tap/foo")) = true ∧
    detStep ⟨false, false, ["foo"]⟩
        (fun _ => .query "user/tap/foo : 1.2.3 ==> 1.2.4" []) ⟨[], [], []⟩ "user/tap/foo" =
      .ok ⟨[("user/tap/foo", "1.2.3")], [("user/tap/foo", "1.2.4")],
           [("user/tap/foo", [])]⟩ := by decide

theorem matchesContractB_iff (s : String) : matchesContractB s = true ↔ matchesContract s := by
  rw [matchesContractB, matchesContract, List.any_eq_true]
  constructor
  · rintro ⟨i, hi, hcond⟩
    rw [Bool.and_eq_true] at hcond
    obtain ⟨h1, h2⟩ := hcond
    rw [ List.isPrefixOf_iff_prefix] at h1
    obtain ⟨t, ht⟩ := h1
    rw [occursInB, List.any_eq_true] at h2
    obtain ⟨j, hj, hpre⟩ := h2
    rw [ List.isPrefixOf_iff_prefix] at hpre
    obtain ⟨u, hu⟩ := hpre
    have h3 : t = s.data.drop (i + 3) := by
      have hdt : ((" : ").data ++ t).drop ((" : ").data.length) = t := List.drop_left _ _
      have := congrArg (List.drop 3) ht
      rw [show ((" : ").data ++ t).drop 3 = t from hdt] at this
      rw [this, List.drop_drop]
    have h5 : s.data.drop (i + 3) =
        (s.data.drop (i + 3)).take j ++ ((" ==> ").data ++ u) := by
      rw [hu]
      exact (List.take_append_drop _ _).symm
    have h6 : s.data = s.data.take i ++ s.data.drop i := (List.take_append_drop _ _).symm
    rw [← ht, h3] at h6
    refine ⟨s.data.take i, (s.data.drop (i + 3)).take j, u, ?_⟩
    calc s.data = s.data.take i ++ ((" : ").data ++ s.data.drop (i + 3)) := h6
      _ = s.data.take i ++
          ((" : ").data ++ ((s.data.drop (i + 3)).take j ++ ((" ==> ").data ++ u))) := by
        rw [← h5]
  · rintro ⟨l1, l2, l3, hdec⟩
    have hlen : s.data.length = l1.length + 3 + l2.length + 5 + l3.length := by
      rw [hdec]
      simp [List.length_append]
      omega
    refine ⟨l1.length, ?_, ?_⟩
    · rw [List.mem_range]
      omega
    · rw [Bool.and_eq_true]
      have hdl1 : s.data.drop l1.length = (" : ").data ++ (l2 ++ ((" ==> ").data ++ l3)) := by
        rw [hdec]
        exact List.drop_left _ _
      have hdl2 : s.data.drop (l1.length + 3) = l2 ++ ((" ==> ").data ++ l3) := by
        rw [← List.drop_drop, hdl1]
        exact List.drop_left ((" : ").data) (l2 ++ ((" ==> ").data ++ l3))
      constructor
      · rw [ List.isPrefixOf_iff_prefix, hdl1]
        exact List.prefix_append _ _
      · rw [occursInB, List.any_eq_true]
        refine ⟨l2.length, ?_, ?_⟩
        · rw [List.mem_range, hdl2]
          simp [List.length_append]
          omega
        · rw [ List.isPrefixOf_iff_prefix, hdl2, List.drop_left]
          exact List.prefix_append _ _

/-- Claim C8 (amended): a non-empty update-check result lacking the " : "
separator or the " ==> " separator only logs a warning: the package receives
no VersionPair and no DependencySet entry and the run continues; but a result
containing both separators whose post-separator part does not split into
exactly two version fields raises the unpacking error and aborts the run with
exit code 1. -/
theorem C8_unparseable :
    (∀ cfg ev st formula stdout depsOut, ev formula = Event.query stdout depsOut →
      cfg.SKIPLIST.contains formula = false → stdout ≠ "" →
      (substrB " : " stdout = false ∨ substrB " ==> " stdout = false) →
      detStep cfg ev st formula = .ok st) ∧
    (∀ cfg ev st formula stdout depsOut second rest,
      ev formula = Event.query stdout depsOut →
      cfg.SKIPLIST.contains formula = false → stdout ≠ "" →
      substrB " : " stdout = true → substrB " ==> " stdout = true →
      (pySplit stdout " : ").drop 1 = second :: rest →
      (pySplit second " ==> ").length ≠ 2 → formula ≠ "" →
      detStep cfg ev st formula = .error (1, formula)) := by
  constructor
  · intro cfg ev st formula stdout depsOut hev hsl hne hsep
    rw [detStep_query cfg ev st formula stdout depsOut hev]
    rw [if_neg (fun h => Bool.false_ne_true (hsl ▸ h)), if_neg (by simp [hne])]
    have hcond : (!substrB " : " stdout || !substrB " ==> " stdout) = true := by
      rcases hsep with h | h <;> simp [h]
    rw [if_pos hcond]
  · intro cfg ev st formula stdout depsOut second rest hev hsl hne h3 h4 hdrop hlen hp
    rw [detStep_query cfg ev st formula stdout depsOut hev]
    rw [if_neg (fun h => Bool.false_ne_true (hsl ▸ h)), if_neg (by simp [hne])]
    have hcond : (!substrB " : " stdout || !substrB " ==> " stdout) = false := by
      simp [h3, h4]
    rw [if_neg (by simp [hcond])]
    simp only [hdrop]
    rcases hsp : pySplit second " ==> " with _ | ⟨o, tl⟩
    · simp only [hsp]
      rw [if_pos (bne_iff_ne.mpr hp)]
    · rcases tl with _ | ⟨n2, tl2⟩
      · simp only [hsp]
        rw [if_pos (bne_iff_ne.mpr hp)]
      · rcases tl2 with _ | ⟨m, tl3⟩
        · exact absurd (by rw [hsp]; rfl) hlen
        · simp only [hsp]
          rw [if_pos (bne_iff_ne.mpr hp)]

/-- Claim C8 witness: a separator-free result is skipped with the run intact,
and a result with both separators but three version fields aborts with 1. -/
theorem C8_unparseable_witness :
    detStep ⟨false, false, []⟩ (fun _ => .query "no separators here" []) ⟨[], [], []⟩
        "t/u/a" = .ok ⟨[], [], []⟩ ∧
    detStep ⟨false, false, []⟩ (fun _ => .query "x : 1 ==> 2 ==> 3" []) ⟨[], [], []⟩
        "t/u/a" = .error (1, "t/u/a") :=
  ⟨C8_unparseable.1 ⟨false, false, []⟩ (fun _ => .query "no separators here" [])
      ⟨[], [], []⟩ "t/u/a" "no separators here" [] rfl (by decide) (by decide)
      (Or.inl (by decide)),
   C8_unparseable.2 ⟨false, false, []⟩ (fun _ => .query "x : 1 ==> 2 ==> 3" [])
      ⟨[], [], []⟩ "t/u/a" "x : 1 ==> 2 ==> 3" [] "1 ==> 2 ==> 3" [] rfl (by decide)
      (by decide) (by decide) (by decide) (by decide) (by decide) (by decide)⟩

/-- Claim C8 counterexample: the non-empty result a ==> b : c does not match
the spec's two-part textual contract, yet the detector step aborts the run
with exit code 1 on it instead of logging a warning and continuing, because
both separator substrings are present but the part after " : " does not split
into two fields. -/
theorem C8_counterexample :
    ("a ==> b : c" ≠ "") ∧ ¬ matchesContract "a ==> b : c" ∧
    detStep ⟨false, false, []⟩ (fun _ => .query "a ==> b : c" []) ⟨[], [], []⟩ "p" =
      .error (1, "p") := by
  refine ⟨by decide, ?_, by decide⟩
  intro hc
  have := (matchesContractB_iff "a ==> b : c").mpr hc
  rw [show matchesContractB "a ==> b : c" = false from by decide] at this
  exact Bool.false_ne_true this

theorem lookup_dictInsert_isSome (d : List (String × String)) (k v x : String) :
    ((dictInsert d k v).lookup x).isSome = true ↔ (x = k ∨ (d.lookup x).isSome = true) := by
  induction d with
  | nil =>
    by_cases hx : x = k
    · simp [dictInsert, lookup_cons_ite, hx, List.lookup_nil]
    · simp [dictInsert, lookup_cons_ite, hx, List.lookup_nil]
  | cons kv rest ih =>
    obtain ⟨k1, v1⟩ := kv
    by_cases hk : k1 = k
    · subst hk
      by_cases hx : x = k1
      · simp [dictInsert, lookup_cons_ite, hx]
      · simp [dictInsert, lookup_cons_ite, hx]
    · rw [show dictInsert ((k1, v1) :: rest) k v = (k1, v1) :: dictInsert rest k v from by
        simp [dictInsert, hk]]
      by_cases hx : x = k1
      · simp [lookup_cons_ite, hx]
      · rw [lookup_cons_ite, lookup_cons_ite, if_neg hx, if_neg hx]
        exact ih

theorem lookup_dictInsert_ne (d : List (String × String)) (k v x : String) (h : x ≠ k) :
    (dictInsert d k v).lookup x = d.lookup x := by
  induction d with
  | nil => simp [dictInsert, lookup_cons_ite, h, List.lookup_nil]
  | cons kv rest ih =>
    obtain ⟨k1, v1⟩ := kv
    by_cases hk : k1 = k
    · subst hk
      rw [show dictInsert ((k1, v1) :: rest) k1 v = (k1, v) :: rest from by simp [dictInsert]]
      rw [lookup_cons_ite, lookup_cons_ite, if_neg h, if_neg h]
    · rw [show dictInsert ((k1, v1) :: rest) k v = (k1, v1) :: dictInsert rest k v from by
        simp [dictInsert, hk]]
      rw [lookup_cons_ite, lookup_cons_ite]
      by_cases hx : x = k1
      · simp [hx]
      · rw [if_neg hx, if_neg hx, ih]

theorem lookup_dictMerge_isSome (b a : List (String × String)) (x : String) :
    ((dictMerge a b).lookup x).isSome = true ↔
      ((a.lookup x).isSome = true ∨ x ∈ b.map Prod.fst) := by
  induction b generalizing a with
  | nil => simp [dictMerge]
  | cons kv rest ih =>
    obtain ⟨k1, v1⟩ := kv
    rw [show dictMerge a ((k1, v1) :: rest) = dictMerge (dictInsert a k1 v1) rest from rfl]
    rw [ih (dictInsert a k1 v1)]
    rw [lookup_dictInsert_isSome]
    simp only [List.map_cons, List.mem_cons]
    constructor
    · rintro ((h | h) | h)
      · exact Or.inr (Or.inl h)
      · exact Or.inl h
      · exact Or.inr (Or.inr h)
    · rintro (h | (h | h))
      · exact Or.inl (Or.inr h)
      · exact Or.inl (Or.inl h)
      · exact Or.inr h

theorem mem_setUnion (xs ys : List String) (x : String) :
    x ∈ setUnion xs ys ↔ (x ∈ xs ∨ x ∈ ys) := by
  simp only [setUnion, List.mem_append, List.mem_filter, Bool.not_eq_true']
  constructor
  · rintro (h | ⟨h, _⟩)
    · exact Or.inl h
    · exact Or.inr h
  · rintro (h | h)
    · exact Or.inl h
    · by_cases hx : x ∈ xs
      · exact Or.inl hx
      · refine Or.inr ⟨h, ?_⟩
        simpa using hx

theorem resStep_inv (sl : List String) (st : ResState) (t : Token) (h : ResInv st) :
    ResInv (resStep sl st t) := by
  cases t with
  | tapTok name entries =>
    rw [resStep]
    by_cases hsl : sl.contains name = true
    · rw [if_pos hsl]; exact h
    · rw [if_neg hsl]
      intro x
      show x ∈ setUnion st.formulae (entries.map Prod.fst) ↔
        (((dictMerge st.formula_file entries).lookup x).isSome = true)
      rw [mem_setUnion, lookup_dictMerge_isSome]
      rw [h x]
  | formulaTok raw full bare loc =>
    rw [resStep]
    by_cases hsl : sl.contains raw = true
    · rw [if_pos hsl]; exact h
    · rw [if_neg hsl]
      by_cases hsl2 : (sl.contains full || sl.contains bare) = true
      · rw [if_pos hsl2]; exact h
      · rw [if_neg hsl2]
        intro x
        show x ∈ setUnion st.formulae [full] ↔
          (((dictInsert st.formula_file full loc).lookup x).isSome = true)
        rw [mem_setUnion, lookup_dictInsert_isSome]
        rw [h x]
        simp only [List.mem_singleton]
        tauto

theorem resolveTokens_inv (sl : List String) (tokens : List Token) :
    ResInv (resolveTokens sl tokens) := by
  have hgen : ∀ (ts : List Token) (st : ResState), ResInv st →
      ResInv (ts.foldl (resStep sl) st) := by
    intro ts
    induction ts with
    | nil => intro st h; exact h
    | cons t rest ih =>
      intro st h
      exact ih (resStep sl st t) (resStep_inv sl st t h)
  apply hgen
  intro x
  simp [List.lookup]

theorem extra_formulae_notin (allTaps : Bool) (tn : Option String) (fs ds : List String)
    (e : String) (he : e ∈ extra_formulae allTaps tn fs ds) : fs.contains e = false := by
  have hbase : ∀ x ∈ ((normalizeDeps ds).dedup).filter (fun d => !fs.contains d),
      fs.contains x = false := by
    intro x hx
    have := (List.mem_filter.mp hx).2
    simpa using this
  simp only [extra_formulae] at he
  split at he
  · cases tn with
    | none => exact hbase e he
    | some t =>
      simp only [tapFilter] at he
      have := (List.mem_filter.mp he).2
      rw [Bool.and_eq_true] at this
      simpa using this.2
  · exact hbase e he

theorem extra_formulae_nodup (allTaps : Bool) (tn : Option String) (fs ds : List String) :
    (extra_formulae allTaps tn fs ds).Nodup := by
  have hbase : (((normalizeDeps ds).dedup).filter (fun d => !fs.contains d)).Nodup :=
    (List.nodup_dedup _).filter _
  simp only [extra_formulae]
  split
  · cases tn with
    | none => exact hbase
    | some t => exact hbase.filter _
  · exact hbase

theorem addLoop_ok_of_fresh (extra : List String) :
    ∀ (st : ResState) (loc : String → Option String),
      (∀ e ∈ extra, st.formula_file.lookup e = none) → extra.Nodup →
      isLocationConflict (addLoop loc extra st) = false := by
  induction extra with
  | nil => intro st loc _ _; rfl
  | cons e rest ih =>
    intro st loc hfresh hnd
    have hlk : st.formula_file.lookup e = none := hfresh e (by simp)
    rw [addLoop, List.foldlM_cons]
    rcases hloc : loc e with _ | location
    · rw [show addStep loc st e = .error (.stderrFail e) from by rw [addStep, hloc]]
      rfl
    · have hstep : addStep loc st e =
          .ok { formulae := setUnion st.formulae [e],
                formula_file := dictInsert st.formula_file e location } := by
        rw [addStep, hloc, hlk]
        rfl
      rw [hstep]
      show isLocationConflict (addLoop loc rest
        { formulae := setUnion st.formulae [e],
          formula_file := dictInsert st.formula_file e location }) = false
      apply ih
      · intro e2 he2
        have hne : e2 ≠ e := by
          intro hh
          subst hh
          exact (List.nodup_cons.mp hnd).1 he2
        show (dictInsert st.formula_file e location).lookup e2 = none
        rw [lookup_dictInsert_ne _ _ _ _ hne]
        exact hfresh e2 (by simp [he2])
      · exact (List.nodup_cons.mp hnd).2

/-- Claim C9: the token-resolution loop keeps the working set equal to the key
set of the location dict, every dependency produced by the expansion step is
outside the working set, and consequently the location-conflict abort branch
of the dependency-adding loop is unreachable: whatever the location oracle
answers, the loop never returns the location-conflict error. -/
theorem C9_no_location_conflict :
    (∀ sl tokens x, x ∈ (resolveTokens sl tokens).formulae ↔
      (((resolveTokens sl tokens).formula_file.lookup x).isSome = true)) ∧
    (∀ allTaps tn fs ds,
      (extra_formulae allTaps tn fs ds).all (fun e => !fs.contains e) = true) ∧
    (∀ sl tokens allTaps tn ds loc,
      isLocationConflict (addLoop loc
        (extra_formulae allTaps tn (resolveTokens sl tokens).formulae ds)
        (resolveTokens sl tokens)) = false) := by
  refine ⟨fun sl tokens => resolveTokens_inv sl tokens, ?_, ?_⟩
  · intro allTaps tn fs ds
    rw [List.all_eq_true]
    intro e he
    rw [extra_formulae_notin allTaps tn fs ds e he]
    rfl
  · intro sl tokens allTaps tn ds loc
    apply addLoop_ok_of_fresh
    · intro e he
      have hcf := extra_formulae_notin allTaps tn (resolveTokens sl tokens).formulae ds e he
      have hnotmem : e ∉ (resolveTokens sl tokens).formulae := by
        intro hmem
        have := resolveTokens_inv sl tokens e
        rw [this] at hmem
        have hmem2 : e ∈ (resolveTokens sl tokens).formulae := by
          rw [resolveTokens_inv sl tokens e]
          exact hmem
        have : (resolveTokens sl tokens).formulae.contains e = true := by
          simpa using hmem2
        rw [hcf] at this
        exact Bool.false_ne_true this
      have := resolveTokens_inv sl tokens e
      rcases hlk : (resolveTokens sl tokens).formula_file.lookup e with _ | v
      · rfl
      · exfalso
        apply hnotmem
        rw [this, hlk]
        rfl
    · exact extra_formulae_nodup allTaps tn (resolveTokens sl tokens).formulae ds

theorem skiplistLoop_error (sl : List String) :
    ∀ taps forms, (∃ i ∈ sl, 3 ≤ charCount '/' i) →
      skiplistLoop sl taps forms = .error 1 := by
  induction sl with
  | nil =>
    intro taps forms hex
    obtain ⟨i, hi, _⟩ := hex
    exact absurd hi (List.not_mem_nil i)
  | cons item rest ih =>
    intro taps forms hex
    by_cases h3 : 3 ≤ charCount '/' item
    · rw [skiplistLoop]
      rw [if_pos h3]
    · have hex2 : ∃ i ∈ rest, 3 ≤ charCount '/' i := by
        obtain ⟨i, hi, hc⟩ := hex
        rcases List.mem_cons.mp hi with h | h
        · subst h; exact absurd hc h3
        · exact ⟨i, h, hc⟩
      rw [skiplistLoop, if_neg h3]
      split
      · exact ih _ _ hex2
      · split
        · exact ih _ _ hex2
        · exact ih _ _ hex2

theorem skiplistLoop_ok (sl : List String) :
    ∀ taps forms, (∀ i ∈ sl, charCount '/' i < 3) →
      ∃ v, skiplistLoop sl taps forms = .ok v := by
  induction sl with
  | nil => intro taps forms _; exact ⟨(taps, forms), rfl⟩
  | cons item rest ih =>
    intro taps forms hall
    have h3 : ¬ 3 ≤ charCount '/' item := by
      have := hall item (by simp)
      omega
    have hrest : ∀ i ∈ rest, charCount '/' i < 3 := fun i hi => hall i (by simp [hi])
    rw [skiplistLoop, if_neg h3]
    split
    · exact ih _ _ hrest
    · split
      · exact ih _ _ hrest
      · exact ih _ _ hrest

/-- Claim C10: a skip-list item with three or more scope separators makes the
run abort with exit code 1 during skip-list preprocessing, before the token
loop contributes anything (the result is error 1 whatever the tokens are);
and when every item has at most two separators, preprocessing succeeds and
never terminates the run. -/
theorem C10_skiplist_guard :
    (∀ sl tokens, (∃ item ∈ sl, 3 ≤ charCount '/' item) →
      runPrelude sl tokens = .error 1) ∧
    (∀ sl, (∀ item ∈ sl, charCount '/' item < 3) →
      ∃ v, skiplistPreprocess sl = .ok v) := by
  constructor
  · intro sl tokens hex
    rw [runPrelude, skiplistPreprocess, skiplistLoop_error sl [] [] hex]
    rfl
  · intro sl hall
    exact skiplistLoop_ok sl [] [] hall

/-- Claim C10 witness: a three-separator item aborts the prelude with exit
code 1 regardless of the tokens, while ordinary items preprocess fine. -/
theorem C10_skiplist_guard_witness :
    runPrelude ["a/b/c/d"] [] = .error 1 ∧
    ∃ v, skiplistPreprocess ["user/tap", "plain", "user/tap/pkg"] = .ok v :=
  ⟨C10_skiplist_guard.1 ["a/b/c/d"] [] ⟨"a/b/c/d", by decide, by decide⟩,
   C10_skiplist_guard.2 ["user/tap", "plain", "user/tap/pkg"] (by decide)⟩
